import Mathlib

/-!
Verification of the asynchronous ad-suggestions job subsystem and its
search-term classification engine.

The definitions below are a shallow embedding of the JavaScript/TypeScript
source:
* `netlify/functions/ad-suggestions.js` — the classification engine
  (`analyzeSearchTermsForGaps`), the negative-keyword normalizer
  (`combineNegativeKeywords`) and the two-tier job store (`saveJob`/`loadJob`);
* `src/app/core/services/ad-suggestions.service.ts` — the client poller
  (`getSuggestions` / `startPolling` / `cancelPolling`).

Embedding conventions:
* Strings are Lean `String`s; the JavaScript operations `toLowerCase`, `trim`
  and `includes` are re-implemented structurally on the underlying character
  list so that the kernel can evaluate them.
* Money amounts are represented in integer cents (`ℕ`).  The source stores
  decimal dollar amounts in JS numbers; every comparison and formula is
  scale-translated exactly: `spend > 2` (dollars) becomes `200 < spend`
  (cents) and `Math.round((spend / clicks) * 100) / 100` dollars equals
  `round(spendCents / clicks)` cents, computed as `(2 * p + q) / (2 * q)`
  with natural floor division (Math.round rounds half towards +infinity,
  which for nonnegative arguments is half-up).
* JS `Array.prototype.sort` with the comparators `(a, b) => b.clicks - a.clicks`
  and `(a, b) => b.spend - a.spend` is a stable descending sort by a numeric
  key; it is modelled by `List.insertionSort` with the total preorder
  `fun a b => key b ≤ key a`, which is the stable descending sort.
* Values that the source guards with `Array.isArray` / truthiness / `.error`
  checks are modelled by the wrapper type `JsInput`.
-/

set_option maxRecDepth 4000

/-- JS `needle` is a contiguous substring of `hay` (`hay.includes(needle)`),
structurally on character lists. -/
def listContainsSub (needle : List Char) : List Char → Bool
  | [] => needle.isEmpty
  | c :: rest => needle.isPrefixOf (c :: rest) || listContainsSub needle rest

/-- JS `hay.includes(needle)` on strings. -/
def jsIncludes (hay needle : String) : Bool :=
  listContainsSub needle.data hay.data

/-- JS `s.toLowerCase()` (ASCII case folding, as used by the source's
keyword vocabularies). -/
def jsLower (s : String) : String :=
  String.mk (s.data.map Char.toLower)

/-- Strip leading and trailing whitespace from a character list. -/
def trimChars (l : List Char) : List Char :=
  ((l.dropWhile Char.isWhitespace).reverse.dropWhile Char.isWhitespace).reverse

/-- JS `s.trim()`. -/
def jsTrim (s : String) : String :=
  String.mk (trimChars s.data)

/-- `term.toLowerCase().trim()` — the normalization applied to search terms
and keywords throughout `ad-suggestions.js`. -/
def normTerm (s : String) : String :=
  jsTrim (jsLower s)

/-- `Math.round(p / q)` for natural `p`, `q > 0`: round half up, computed with
natural floor division as `(2p + q) / (2q)`. -/
def jsRoundDiv (p q : ℕ) : ℕ :=
  (2 * p + q) / (2 * q)

/-- Wrapper distinguishing the shapes a duck-typed JS argument can take:
absent (`null`/`undefined`), a fetch-failure sentinel object carrying an
`error` field, some other non-array value, or a genuine array of records. -/
inductive JsInput (α : Type) : Type where
  | missing : JsInput α
  | sentinel (msg : String) : JsInput α
  | nonArray : JsInput α
  | arr (l : List α) : JsInput α

/-- `WRONG_INTENT_WORDS` from `ad-suggestions.js`. -/
def WRONG_INTENT_WORDS : List String :=
  ["lawyer", "lawyers", "attorney", "attorneys", "near me", "legal advice",
   "free consultation", "pro bono", "lawsuit", "sue", "court",
   "template", "templates", "free", "sample", "example", "diy template",
   "word doc", "download"]

/-- `HIGH_INTENT_WORDS` from `ad-suggestions.js`. -/
def HIGH_INTENT_WORDS : List String :=
  ["respond", "response", "letter", "dispute", "fight", "violation",
   "notice", "write", "help", "fine"]

/-- `hasWrongIntent` helper: the lower-cased term contains some
wrong-intent word (itself lower-cased). -/
def hasWrongIntent (term : String) : Bool :=
  WRONG_INTENT_WORDS.any (fun word => jsIncludes (jsLower term) (jsLower word))

/-- `scoreIntent` helper: count high-intent words contained in the term;
at least two matches score `high`, otherwise `medium`. -/
def scoreIntent (term : String) : String :=
  if 2 ≤ (HIGH_INTENT_WORDS.filter (fun word => jsIncludes (jsLower term) (jsLower word))).length
  then "high" else "medium"

/-- `isAlreadyNegated` helper: the normalized term is in the negative set
directly, or some negative keyword of the set is a substring of it. -/
def isAlreadyNegated (negativeKeywordsSet : List String) (term : String) : Bool :=
  let lowerTerm := normTerm term
  decide (lowerTerm ∈ negativeKeywordsSet)
    || negativeKeywordsSet.any (fun negative => jsIncludes lowerTerm negative)

/-- One search-term report row (`SearchTermRecord`); `spend` is in cents. -/
structure SearchTermRecord where
  searchTerm : String
  clicks : ℕ
  impressions : ℕ
  spend : ℕ
  conversions : ℚ
  ctr : ℚ
deriving DecidableEq

/-- One existing targeted keyword (only its `keyword` text is consulted by
the engine). -/
structure KeywordRecord where
  keyword : String
  matchType : String
  status : String
deriving DecidableEq

/-- An entry of the `opportunities` output list; `spend` and `actualCpc`
are in cents. -/
structure Opportunity where
  searchTerm : String
  clicks : ℕ
  impressions : ℕ
  spend : ℕ
  conversions : ℚ
  ctr : ℚ
  actualCpc : ℕ
  intentScore : String
deriving DecidableEq

/-- An entry of the intermediate `allWasteTerms` list and the `wasteTerms`
output list; `spend` and `actualCpc` are in cents. -/
structure WasteTerm where
  searchTerm : String
  clicks : ℕ
  spend : ℕ
  conversions : ℚ
  actualCpc : ℕ
  alreadyNegative : Bool
deriving DecidableEq

/-- An entry of the `alreadyCovered` output list; `wastedSpend` in cents. -/
structure CoveredWaste where
  keyword : String
  wastedSpend : ℕ
  note : String
deriving DecidableEq

/-- The `analysis` stats block of a classification result
(`totalWastedOnWrongIntent` in cents). -/
structure AnalysisStats where
  totalSearchTerms : ℕ
  confirmedGaps : ℕ
  confirmedWaste : ℕ
  totalWastedOnWrongIntent : ℕ
  alreadyNegated : ℕ
deriving DecidableEq

/-- The value returned by `analyzeSearchTermsForGaps`. -/
structure ClassificationResult where
  opportunities : List Opportunity
  wasteTerms : List WasteTerm
  alreadyCovered : List CoveredWaste
  analysis : AnalysisStats
deriving DecidableEq

/-- Stable descending sort by a natural-number key: the behaviour of JS
`arr.sort((a, b) => key(b) - key(a))`. -/
def sortByDesc {α : Type} (key : α → ℕ) (l : List α) : List α :=
  @List.insertionSort α (fun a b => key b ≤ key a)
    (fun a b => Nat.decLe (key b) (key a)) l

/-- The normalized existing-keyword set built at the top of
`analyzeSearchTermsForGaps` (records with an empty `keyword` are skipped). -/
def existingKeywordsOf (keywordData : JsInput KeywordRecord) : List String :=
  match keywordData with
  | .arr l => (l.filter (fun kw => kw.keyword ≠ "")).map (fun kw => normTerm kw.keyword)
  | _ => []

/-- The opportunity filter: `clicks >= 1 && !hasWrongIntent(term) && !isExistingKeyword`. -/
def oppFilter (existingKeywords : List String) (st : SearchTermRecord) : Bool :=
  decide (1 ≤ st.clicks) && !hasWrongIntent st.searchTerm
    && !(decide (normTerm st.searchTerm ∈ existingKeywords))

/-- The record built for each opportunity term. -/
def mkOpportunity (st : SearchTermRecord) : Opportunity :=
  { searchTerm := st.searchTerm
    clicks := st.clicks
    impressions := st.impressions
    spend := st.spend
    conversions := st.conversions
    ctr := st.ctr
    actualCpc := if 0 < st.clicks then jsRoundDiv st.spend st.clicks else 0
    intentScore := scoreIntent st.searchTerm }

/-- The `opportunities` pipeline: filter, map, stable sort descending by
clicks, truncate to the top 20. -/
def opportunitiesOf (ts : List SearchTermRecord) (existingKeywords : List String) :
    List Opportunity :=
  (sortByDesc (fun o => o.clicks)
    ((ts.filter (oppFilter existingKeywords)).map mkOpportunity)).take 20

/-- The waste filter: `clicks >= 1 && conversions === 0 && spend > 2 && hasWrongIntent(term)`
(`2` dollars = `200` cents). -/
def wasteFilter (st : SearchTermRecord) : Bool :=
  decide (1 ≤ st.clicks) && decide (st.conversions = 0)
    && decide (200 < st.spend) && hasWrongIntent st.searchTerm

/-- The record built for each waste candidate. -/
def mkWasteTerm (negativeKeywordsSet : List String) (st : SearchTermRecord) : WasteTerm :=
  { searchTerm := st.searchTerm
    clicks := st.clicks
    spend := st.spend
    conversions := st.conversions
    actualCpc := if 0 < st.clicks then jsRoundDiv st.spend st.clicks else 0
    alreadyNegative := isAlreadyNegated negativeKeywordsSet st.searchTerm }

/-- `allWasteTerms`: all waste candidates, stable-sorted descending by spend. -/
def allWasteTermsOf (ts : List SearchTermRecord) (negativeKeywordsSet : List String) :
    List WasteTerm :=
  sortByDesc (fun wt => wt.spend) ((ts.filter wasteFilter).map (mkWasteTerm negativeKeywordsSet))

/-- `wasteTerms`: the not-yet-negated waste candidates, truncated to the top 15. -/
def wasteTermsOf (ts : List SearchTermRecord) (negativeKeywordsSet : List String) :
    List WasteTerm :=
  ((allWasteTermsOf ts negativeKeywordsSet).filter (fun wt => !wt.alreadyNegative)).take 15

/-- `alreadyCovered`: the waste candidates already covered by a negative keyword. -/
def alreadyCoveredOf (ts : List SearchTermRecord) (negativeKeywordsSet : List String) :
    List CoveredWaste :=
  ((allWasteTermsOf ts negativeKeywordsSet).filter (fun wt => wt.alreadyNegative)).map
    (fun wt => { keyword := wt.searchTerm, wastedSpend := wt.spend, note := "already negated" })

/-- Sum of the `spend` fields (JS `reduce((sum, wt) => sum + wt.spend, 0)`).
The subsequent `Math.round(· * 100) / 100` of the source is the identity on
whole-cent amounts and is therefore omitted. -/
def sumSpend (l : List WasteTerm) : ℕ :=
  l.foldl (fun s wt => s + wt.spend) 0

/-- The result returned when the search-term input is absent or malformed:
all lists empty and the stats block still at its initial zeros. -/
def emptyClassification : ClassificationResult :=
  { opportunities := [], wasteTerms := [], alreadyCovered := []
    analysis := { totalSearchTerms := 0, confirmedGaps := 0, confirmedWaste := 0,
                  totalWastedOnWrongIntent := 0, alreadyNegated := 0 } }

/-- `analyzeSearchTermsForGaps(searchTermData, keywordData, negativeKeywordsSet)`.
The guard `!searchTermData || searchTermData.error || !Array.isArray(searchTermData)`
sends every non-array input to the early return. -/
def analyzeSearchTermsForGaps (searchTermData : JsInput SearchTermRecord)
    (keywordData : JsInput KeywordRecord) (negativeKeywordsSet : List String) :
    ClassificationResult :=
  match searchTermData with
  | .arr ts =>
      let existingKeywords := existingKeywordsOf keywordData
      let opportunities := opportunitiesOf ts existingKeywords
      let wasteTerms := wasteTermsOf ts negativeKeywordsSet
      let alreadyCovered := alreadyCoveredOf ts negativeKeywordsSet
      { opportunities := opportunities
        wasteTerms := wasteTerms
        alreadyCovered := alreadyCovered
        analysis := { totalSearchTerms := ts.length
                      confirmedGaps := opportunities.length
                      confirmedWaste := wasteTerms.length
                      totalWastedOnWrongIntent := sumSpend wasteTerms
                      alreadyNegated := alreadyCovered.length } }
  | _ => emptyClassification

/-- One raw negative-keyword record as fetched from either source
(`campaignName` is present on campaign rows, `sharedSetName` on shared-set
rows; a missing `keyword` field is modelled as the empty string, which is
what the truthiness check of the source drops). -/
structure NegRecord where
  keyword : String
  matchType : String
  campaignName : Option String := none
  sharedSetName : Option String := none
deriving DecidableEq

/-- An entry of the detailed `existingNegatives` list built by
`combineNegativeKeywords`. -/
structure ExistingNegative where
  keyword : String
  matchType : String
  scope : String
  campaignName : Option String := none
  sharedSetName : Option String := none
deriving DecidableEq

/-- JS `Set.add`: insertion-ordered, ignores duplicates. -/
def jsSetAdd (s : List String) (k : String) : List String :=
  if k ∈ s then s else s ++ [k]

/-- The detailed entry pushed for a campaign-level negative. -/
def mkCampaignEntry (neg : NegRecord) : ExistingNegative :=
  { keyword := neg.keyword, matchType := neg.matchType, scope := "campaign",
    campaignName := neg.campaignName }

/-- The detailed entry pushed for an account-level (shared set) negative. -/
def mkSharedEntry (neg : NegRecord) : ExistingNegative :=
  { keyword := neg.keyword, matchType := neg.matchType, scope := "account",
    sharedSetName := neg.sharedSetName }

/-- Processing of one record from either source: records with an empty
keyword are skipped, otherwise the normalized keyword joins the match set
and the detailed entry is appended. -/
def addNegRecord (mkEntry : NegRecord → ExistingNegative)
    (acc : List ExistingNegative × List String) (neg : NegRecord) :
    List ExistingNegative × List String :=
  if neg.keyword ≠ "" then
    (acc.1 ++ [mkEntry neg], jsSetAdd acc.2 (normTerm neg.keyword))
  else acc

/-- Processing of one campaign-level record. -/
def addCampaignNeg : List ExistingNegative × List String → NegRecord →
    List ExistingNegative × List String :=
  addNegRecord mkCampaignEntry

/-- Processing of one account-level (shared set) record. -/
def addSharedNeg : List ExistingNegative × List String → NegRecord →
    List ExistingNegative × List String :=
  addNegRecord mkSharedEntry

/-- `combineNegativeKeywords(campaignNegatives, sharedSetNegatives)`:
returns `(existingNegatives, negativeKeywordsSet)`.  Each source is used
only when it is a genuine array without an `error` field. -/
def combineNegativeKeywords (campaignNegatives sharedSetNegatives : JsInput NegRecord) :
    List ExistingNegative × List String :=
  let acc0 : List ExistingNegative × List String := ([], [])
  let acc1 := match campaignNegatives with
    | .arr l => l.foldl addCampaignNeg acc0
    | _ => acc0
  match sharedSetNegatives with
  | .arr l => l.foldl addSharedNeg acc1
  | _ => acc1

/-- A stored job record (`{status, result, error}`; the `result` payload is
abstracted to an opaque string). -/
structure JobRecord where
  status : String
  result : Option String
  error : Option String
deriving DecidableEq

/-- Pointwise update of a string-keyed map. -/
def fupdate {α : Type} (f : String → α) (k : String) (v : α) : String → α :=
  fun x => if x = k then v else f x

/-- How the durable (Supabase) tier behaves during one `saveJob` call:
the client is unconfigured (`getSupabaseClient()` returns null), the upsert
fails (error result or thrown exception, both logged and swallowed), or the
upsert succeeds. -/
inductive DurableOutcome : Type where
  | unconfigured : DurableOutcome
  | writeFails : DurableOutcome
  | writeOk : DurableOutcome
deriving DecidableEq

/-- The two tiers of the job store: the module-level in-memory `jobStore`
map and the durable `ad_suggestion_jobs` table. -/
structure JobStoreState where
  jobStore : String → Option JobRecord
  durable : String → Option JobRecord

/-- `saveJob(jobId, data)`: the in-memory map is always written first; the
durable upsert happens only when the client is configured and the write
succeeds — a durable failure never undoes the in-memory write. -/
def saveJob (s : JobStoreState) (jobId : String) (data : JobRecord)
    (outcome : DurableOutcome) : JobStoreState :=
  let s' : JobStoreState := { s with jobStore := fupdate s.jobStore jobId (some data) }
  match outcome with
  | .writeOk => { s' with durable := fupdate s'.durable jobId (some data) }
  | _ => s'

/-- `loadJob(jobId)`: the in-memory map is consulted first; only on a miss
does the read fall back to the durable tier (which needs a configured
client and a successful select). -/
def loadJob (s : JobStoreState) (jobId : String) (supabaseAvailable : Bool)
    (durableReadFails : Bool) : Option JobRecord :=
  match s.jobStore jobId with
  | some job => some job
  | none =>
      if supabaseAvailable && !durableReadFails then s.durable jobId else none

/-- The body shapes a poll HTTP request can resolve with, plus the transport
failure channel: a `processing` status, a `complete` status (with or without
an attached `result`), an `error` status carrying a message, or an HTTP
error delivered to the error callback. -/
inductive PollResponse : Type where
  | processing : PollResponse
  | complete (hasResult : Bool) : PollResponse
  | errorStatus (msg : String) : PollResponse
  | httpError (msg : String) : PollResponse
deriving DecidableEq

/-- The values `startPolling` can emit on a job's result subject. -/
inductive Emission : Type where
  | timeoutResult : Emission
  | serverError (msg : String) : Emission
  | success : Emission
  | unexpectedFormat : Emission
  | httpFailure (msg : String) : Emission
deriving DecidableEq

/-- State of one `AdSuggestionsService` instance together with the result
subjects handed out by `getSuggestions`.  `active` is the job whose interval
subscription is currently stored in `pollingSubscription` (`none` after
`cancelPolling`).  `attempts` is the per-`startPolling` attempt counter,
`pending` the multiset of poll HTTP requests in flight (requests are NOT
cancelled by `cancelPolling`: only the interval subscription is), `emitted`
and `completed` the per-job observable state of the result subject.
`polled` is a ghost counter of poll HTTP requests issued per job. -/
structure ServiceState where
  active : Option String
  attempts : String → ℕ
  polled : String → ℕ
  pending : List String
  emitted : String → List Emission
  completed : String → Bool

/-- The events the service reacts to: an interval tick for a job's
subscription, a new submission via `getSuggestions` (whose job-start POST
succeeds and returns the fresh job id), and the arrival of the response to
an in-flight poll request. -/
inductive SvcEvent : Type where
  | tick (j : String) : SvcEvent
  | submit (j : String) : SvcEvent
  | respond (j : String) (r : PollResponse) : SvcEvent
deriving DecidableEq

/-- `result$.next(e); result$.complete()` — an RxJS subject ignores both
calls once completed. -/
def emitAndComplete (s : ServiceState) (j : String) (e : Emission) : ServiceState :=
  if s.completed j then s
  else { s with emitted := fupdate s.emitted j (s.emitted j ++ [e]),
                completed := fupdate s.completed j true }

/-- One step of the service, translated from `startPolling` /
`getSuggestions` / `cancelPolling`:
* `tick j` fires only while `j`'s interval subscription is live; it
  increments `attempts`, and either hits the timeout branch (unsubscribe,
  emit the client-side timeout result, complete) or issues a poll request;
* `submit j` is `getSuggestions`: `cancelPolling()` (drops whatever interval
  subscription is live, leaving in-flight requests untouched) and
  `startPolling(j)` with a fresh attempt counter;
* `respond j r` runs the poll subscriber for an in-flight request of `j`
  regardless of which interval subscription is live, because the inner HTTP
  subscription is never torn down: `processing` just returns, every other
  outcome calls `cancelPolling()` (unconditionally clearing `active`) and
  emits once on `j`'s subject. -/
def svcStep (maxAttempts : ℕ) (s : ServiceState) : SvcEvent → ServiceState
  | .tick j =>
      if s.active = some j then
        if maxAttempts < s.attempts j + 1 then
          emitAndComplete { s with attempts := fupdate s.attempts j (s.attempts j + 1),
                                   active := none } j .timeoutResult
        else
          { s with attempts := fupdate s.attempts j (s.attempts j + 1),
                   pending := s.pending ++ [j],
                   polled := fupdate s.polled j (s.polled j + 1) }
      else s
  | .submit j =>
      { s with active := some j, attempts := fupdate s.attempts j 0 }
  | .respond j r =>
      if j ∈ s.pending then
        match r with
        | .processing => { s with pending := s.pending.erase j }
        | .errorStatus m =>
            emitAndComplete { s with pending := s.pending.erase j, active := none }
              j (.serverError m)
        | .complete true =>
            emitAndComplete { s with pending := s.pending.erase j, active := none }
              j .success
        | .complete false =>
            emitAndComplete { s with pending := s.pending.erase j, active := none }
              j .unexpectedFormat
        | .httpError m =>
            emitAndComplete { s with pending := s.pending.erase j, active := none }
              j (.httpFailure m)
      else s

/-- Run the service over a list of events. -/
def runSvc (maxAttempts : ℕ) (s : ServiceState) (evs : List SvcEvent) : ServiceState :=
  evs.foldl (svcStep maxAttempts) s

/-- The service before any submission. -/
def initSvc : ServiceState :=
  { active := none, attempts := fun _ => 0, polled := fun _ => 0,
    pending := [], emitted := fun _ => [], completed := fun _ => false }

/-! ### Helper lemmas about the stable descending sort -/

theorem mem_sortByDesc {α : Type} (key : α → ℕ) {l : List α} {x : α} :
    x ∈ sortByDesc key l ↔ x ∈ l :=
  @List.mem_insertionSort α (fun a b => key b ≤ key a)
    (fun a b => Nat.decLe (key b) (key a)) l x

theorem perm_sortByDesc {α : Type} (key : α → ℕ) (l : List α) :
    (sortByDesc key l).Perm l :=
  @List.perm_insertionSort α (fun a b => key b ≤ key a)
    (fun a b => Nat.decLe (key b) (key a)) l

theorem length_sortByDesc {α : Type} (key : α → ℕ) (l : List α) :
    (sortByDesc key l).length = l.length :=
  (perm_sortByDesc key l).length_eq

theorem sorted_sortByDesc {α : Type} (key : α → ℕ) (l : List α) :
    List.Sorted (fun a b => key b ≤ key a) (sortByDesc key l) := by
  haveI : IsTotal α (fun a b => key b ≤ key a) := ⟨fun a b => Nat.le_total (key b) (key a)⟩
  haveI : IsTrans α (fun a b => key b ≤ key a) :=
    ⟨fun _ _ _ hab hbc => Nat.le_trans hbc hab⟩
  exact @List.sorted_insertionSort α (fun a b => key b ≤ key a)
    (fun a b => Nat.decLe (key b) (key a)) _ _ l

/-! ### Projections of the classifier on array input -/

theorem analyze_arr_opportunities (ts : List SearchTermRecord)
    (keywordData : JsInput KeywordRecord) (negSet : List String) :
    (analyzeSearchTermsForGaps (.arr ts) keywordData negSet).opportunities
      = opportunitiesOf ts (existingKeywordsOf keywordData) := rfl

theorem analyze_arr_wasteTerms (ts : List SearchTermRecord)
    (keywordData : JsInput KeywordRecord) (negSet : List String) :
    (analyzeSearchTermsForGaps (.arr ts) keywordData negSet).wasteTerms
      = wasteTermsOf ts negSet := rfl

theorem analyze_arr_alreadyCovered (ts : List SearchTermRecord)
    (keywordData : JsInput KeywordRecord) (negSet : List String) :
    (analyzeSearchTermsForGaps (.arr ts) keywordData negSet).alreadyCovered
      = alreadyCoveredOf ts negSet := rfl

/-! ### Membership (soundness) lemmas for the three output buckets -/

theorem exists_of_mem_opportunitiesOf {ts : List SearchTermRecord}
    {existingKeywords : List String} {o : Opportunity}
    (h : o ∈ opportunitiesOf ts existingKeywords) :
    ∃ st, st ∈ ts ∧ oppFilter existingKeywords st = true ∧ o = mkOpportunity st := by
  have h1 : o ∈ sortByDesc (fun o => o.clicks)
      ((ts.filter (oppFilter existingKeywords)).map mkOpportunity) :=
    List.take_subset _ _ h
  rw [mem_sortByDesc] at h1
  rcases List.mem_map.1 h1 with ⟨st, hst, hmk⟩
  rcases List.mem_filter.1 hst with ⟨hmem, hfil⟩
  exact ⟨st, hmem, hfil, hmk.symm⟩

theorem exists_of_mem_wasteTermsOf {ts : List SearchTermRecord}
    {negSet : List String} {wt : WasteTerm}
    (h : wt ∈ wasteTermsOf ts negSet) :
    (∃ st, st ∈ ts ∧ wasteFilter st = true ∧ wt = mkWasteTerm negSet st)
      ∧ wt.alreadyNegative = false := by
  have h1 : wt ∈ (allWasteTermsOf ts negSet).filter (fun wt => !wt.alreadyNegative) :=
    List.take_subset _ _ h
  rcases List.mem_filter.1 h1 with ⟨hall, hneg⟩
  rw [allWasteTermsOf, mem_sortByDesc] at hall
  rcases List.mem_map.1 hall with ⟨st, hst, hmk⟩
  rcases List.mem_filter.1 hst with ⟨hmem, hfil⟩
  refine ⟨⟨st, hmem, hfil, hmk.symm⟩, ?_⟩
  simpa using hneg

theorem exists_of_mem_alreadyCoveredOf {ts : List SearchTermRecord}
    {negSet : List String} {c : CoveredWaste}
    (h : c ∈ alreadyCoveredOf ts negSet) :
    ∃ st, st ∈ ts ∧ wasteFilter st = true
      ∧ isAlreadyNegated negSet st.searchTerm = true
      ∧ c = { keyword := st.searchTerm, wastedSpend := st.spend, note := "already negated" } := by
  rcases List.mem_map.1 h with ⟨wt, hwt, hc⟩
  rcases List.mem_filter.1 hwt with ⟨hall, hneg⟩
  rw [allWasteTermsOf, mem_sortByDesc] at hall
  rcases List.mem_map.1 hall with ⟨st, hst, hmk⟩
  rcases List.mem_filter.1 hst with ⟨hmem, hfil⟩
  refine ⟨st, hmem, hfil, ?_, ?_⟩
  · rw [← hmk] at hneg
    simpa [mkWasteTerm] using hneg
  · rw [← hc, ← hmk]
    simp [mkWasteTerm]

/-! ### Intent / negation facts about bucket members, keyed by the term string -/

theorem wrongIntent_of_mem_opportunitiesOf {ts : List SearchTermRecord}
    {existingKeywords : List String} {o : Opportunity}
    (h : o ∈ opportunitiesOf ts existingKeywords) :
    hasWrongIntent o.searchTerm = false := by
  rcases exists_of_mem_opportunitiesOf h with ⟨st, _, hfil, rfl⟩
  have hfil' := hfil
  simp only [oppFilter, Bool.and_eq_true, Bool.not_eq_true'] at hfil'
  exact hfil'.1.2

theorem wrongIntent_of_mem_wasteTermsOf {ts : List SearchTermRecord}
    {negSet : List String} {wt : WasteTerm}
    (h : wt ∈ wasteTermsOf ts negSet) :
    hasWrongIntent wt.searchTerm = true ∧ isAlreadyNegated negSet wt.searchTerm = false := by
  rcases exists_of_mem_wasteTermsOf h with ⟨⟨st, _, hfil, rfl⟩, hneg⟩
  simp only [wasteFilter, Bool.and_eq_true] at hfil
  exact ⟨hfil.2, hneg⟩

theorem wrongIntent_of_mem_alreadyCoveredOf {ts : List SearchTermRecord}
    {negSet : List String} {c : CoveredWaste}
    (h : c ∈ alreadyCoveredOf ts negSet) :
    hasWrongIntent c.keyword = true ∧ isAlreadyNegated negSet c.keyword = true := by
  rcases exists_of_mem_alreadyCoveredOf h with ⟨st, _, hfil, hneg, rfl⟩
  simp only [wasteFilter, Bool.and_eq_true] at hfil
  exact ⟨hfil.2, hneg⟩

/-- C2: for every input triple, the three output lists of
`analyzeSearchTermsForGaps` are pairwise disjoint by search term: the
term-wise intersections of `opportunities`, `wasteTerms` and
`alreadyCovered` are all empty. -/
theorem claim2_bucket_terms_pairwise_disjoint (searchTermData : JsInput SearchTermRecord)
    (keywordData : JsInput KeywordRecord) (negativeKeywordsSet : List String) :
    ((analyzeSearchTermsForGaps searchTermData keywordData negativeKeywordsSet).opportunities.map
        (fun o => o.searchTerm)
      ∩ (analyzeSearchTermsForGaps searchTermData keywordData negativeKeywordsSet).wasteTerms.map
        (fun wt => wt.searchTerm)) = []
    ∧ ((analyzeSearchTermsForGaps searchTermData keywordData negativeKeywordsSet).opportunities.map
        (fun o => o.searchTerm)
      ∩ (analyzeSearchTermsForGaps searchTermData keywordData negativeKeywordsSet).alreadyCovered.map
        (fun c => c.keyword)) = []
    ∧ ((analyzeSearchTermsForGaps searchTermData keywordData negativeKeywordsSet).wasteTerms.map
        (fun wt => wt.searchTerm)
      ∩ (analyzeSearchTermsForGaps searchTermData keywordData negativeKeywordsSet).alreadyCovered.map
        (fun c => c.keyword)) = [] := by
  cases searchTermData with
  | arr ts =>
      refine ⟨?_, ?_, ?_⟩
      · rw [List.eq_nil_iff_forall_not_mem]
        intro t ht
        rw [List.mem_inter_iff] at ht
        obtain ⟨h1, h2⟩ := ht
        rw [analyze_arr_opportunities] at h1
        rw [analyze_arr_wasteTerms] at h2
        rcases List.mem_map.1 h1 with ⟨o, ho, rfl⟩
        rcases List.mem_map.1 h2 with ⟨wt, hwt, hterm⟩
        have h3 := wrongIntent_of_mem_opportunitiesOf ho
        have h4 := (wrongIntent_of_mem_wasteTermsOf hwt).1
        rw [hterm] at h4
        simp [h3] at h4
      · rw [List.eq_nil_iff_forall_not_mem]
        intro t ht
        rw [List.mem_inter_iff] at ht
        obtain ⟨h1, h2⟩ := ht
        rw [analyze_arr_opportunities] at h1
        rw [analyze_arr_alreadyCovered] at h2
        rcases List.mem_map.1 h1 with ⟨o, ho, rfl⟩
        rcases List.mem_map.1 h2 with ⟨c, hc, hterm⟩
        have h3 := wrongIntent_of_mem_opportunitiesOf ho
        have h4 := (wrongIntent_of_mem_alreadyCoveredOf hc).1
        rw [hterm] at h4
        simp [h3] at h4
      · rw [List.eq_nil_iff_forall_not_mem]
        intro t ht
        rw [List.mem_inter_iff] at ht
        obtain ⟨h1, h2⟩ := ht
        rw [analyze_arr_wasteTerms] at h1
        rw [analyze_arr_alreadyCovered] at h2
        rcases List.mem_map.1 h1 with ⟨wt, hwt, rfl⟩
        rcases List.mem_map.1 h2 with ⟨c, hc, hterm⟩
        have h3 := (wrongIntent_of_mem_wasteTermsOf hwt).2
        have h4 := (wrongIntent_of_mem_alreadyCoveredOf hc).2
        rw [hterm] at h4
        simp [h3] at h4
  | missing => simp [analyzeSearchTermsForGaps, emptyClassification]
  | sentinel msg => simp [analyzeSearchTermsForGaps, emptyClassification]
  | nonArray => simp [analyzeSearchTermsForGaps, emptyClassification]

/-- C3: negative-set membership also succeeds by substring containment
(any negative keyword of the set that is a substring of the normalized term
makes `isAlreadyNegated` true); concretely, with negative set
`{"attorney"}` the term `"hoa attorney help"` (clicks 3, conversions 0,
spend $5.00 = 500 cents) lands in `alreadyCovered` and not in
`wasteTerms`. -/
theorem claim3_substring_negation_and_example :
    (∀ (negativeKeywordsSet : List String) (term negative : String),
        negative ∈ negativeKeywordsSet →
        jsIncludes (normTerm term) negative = true →
        isAlreadyNegated negativeKeywordsSet term = true)
    ∧ (analyzeSearchTermsForGaps
          (.arr [{ searchTerm := "hoa attorney help", clicks := 3, impressions := 0,
                   spend := 500, conversions := 0, ctr := 0 }])
          (.arr []) ["attorney"]).alreadyCovered.map (fun c => c.keyword)
        = ["hoa attorney help"]
    ∧ (analyzeSearchTermsForGaps
          (.arr [{ searchTerm := "hoa attorney help", clicks := 3, impressions := 0,
                   spend := 500, conversions := 0, ctr := 0 }])
          (.arr []) ["attorney"]).wasteTerms = [] := by
  refine ⟨?_, by decide, by decide⟩
  intro negSet term negative hmem hsub
  simp only [isAlreadyNegated, Bool.or_eq_true, List.any_eq_true, decide_eq_true_eq]
  exact Or.inr ⟨negative, hmem, hsub⟩

/-- Witness for C3: the substring rule applied at the concrete negative set
`["attorney"]` and term `"hoa attorney help"`. -/
theorem claim3_witness : isAlreadyNegated ["attorney"] "hoa attorney help" = true :=
  claim3_substring_negation_and_example.1 ["attorney"] "hoa attorney help" "attorney"
    (by decide) (by decide)

/-- C9: absent or malformed search-term input (null, a fetch-failure
sentinel, or any non-array value) yields the empty classification result:
all three lists empty and every stats count zero.  (The embedding is total,
so no exception can be thrown.) -/
theorem claim9_malformed_input_yields_empty (keywordData : JsInput KeywordRecord)
    (negativeKeywordsSet : List String) (msg : String) :
    analyzeSearchTermsForGaps .missing keywordData negativeKeywordsSet = emptyClassification
    ∧ analyzeSearchTermsForGaps (.sentinel msg) keywordData negativeKeywordsSet
        = emptyClassification
    ∧ analyzeSearchTermsForGaps .nonArray keywordData negativeKeywordsSet = emptyClassification
    ∧ emptyClassification
        = { opportunities := [], wasteTerms := [], alreadyCovered := [],
            analysis := { totalSearchTerms := 0, confirmedGaps := 0, confirmedWaste := 0,
                          totalWastedOnWrongIntent := 0, alreadyNegated := 0 } } :=
  ⟨rfl, rfl, rfl, rfl⟩

/-- Witness for C9 at a concrete malformed input. -/
theorem claim9_witness :
    analyzeSearchTermsForGaps (.sentinel "Failed to fetch search terms") (.arr []) []
      = emptyClassification :=
  (claim9_malformed_input_yields_empty (.arr []) [] "Failed to fetch search terms").2.1

/-- C7: after `saveJob`, a same-process `loadJob` of the same id returns the
saved record no matter how the durable tier behaved during the save (client
unconfigured, write failed, or write succeeded) and no matter whether the
durable tier is even readable now: the in-memory map is written first and
read first. -/
theorem claim7_saved_job_visible_in_process (s : JobStoreState) (jobId : String)
    (data : JobRecord) (outcome : DurableOutcome)
    (supabaseAvailable durableReadFails : Bool) :
    loadJob (saveJob s jobId data outcome) jobId supabaseAvailable durableReadFails
      = some data := by
  cases outcome <;> simp [saveJob, loadJob, fupdate]

/-- Witness for C7: a concrete save whose durable write fails is still
served from the in-memory tier. -/
theorem claim7_witness :
    loadJob
      (saveJob { jobStore := fun _ => none, durable := fun _ => none } "job_1"
        { status := "complete", result := some "payload", error := none } .writeFails)
      "job_1" false false
      = some { status := "complete", result := some "payload", error := none } :=
  claim7_saved_job_visible_in_process _ "job_1" _ .writeFails false false

/-- C1 (amended): a term passing the waste filter (wrong-intent, clicks ≥ 1,
conversions = 0, spend > $2.00) that is already negated appears in
`alreadyCovered` and never in `wasteTerms`; one that is not yet negated
never appears in `alreadyCovered`, and appears in `wasteTerms` provided at
most 15 not-yet-negated waste candidates exist.  (With more than 15, the
candidates below the top 15 by spend are dropped from both lists, which is
what refutes the claim as stated.) -/
theorem claim1_waste_partition_amended (ts : List SearchTermRecord)
    (keywordData : JsInput KeywordRecord) (negativeKeywordsSet : List String)
    (st : SearchTermRecord) (hmem : st ∈ ts) (hw : wasteFilter st = true) :
    (isAlreadyNegated negativeKeywordsSet st.searchTerm = true →
        st.searchTerm ∈ (analyzeSearchTermsForGaps (.arr ts) keywordData
            negativeKeywordsSet).alreadyCovered.map (fun c => c.keyword)
          ∧ st.searchTerm ∉ (analyzeSearchTermsForGaps (.arr ts) keywordData
            negativeKeywordsSet).wasteTerms.map (fun wt => wt.searchTerm))
    ∧ (isAlreadyNegated negativeKeywordsSet st.searchTerm = false →
        st.searchTerm ∉ (analyzeSearchTermsForGaps (.arr ts) keywordData
            negativeKeywordsSet).alreadyCovered.map (fun c => c.keyword)
          ∧ (((allWasteTermsOf ts negativeKeywordsSet).filter
                (fun wt => !wt.alreadyNegative)).length ≤ 15 →
              st.searchTerm ∈ (analyzeSearchTermsForGaps (.arr ts) keywordData
                  negativeKeywordsSet).wasteTerms.map (fun wt => wt.searchTerm))) := by
  constructor
  · intro hneg
    constructor
    · rw [analyze_arr_alreadyCovered, alreadyCoveredOf]
      apply List.mem_map.2
      refine ⟨{ keyword := st.searchTerm, wastedSpend := st.spend, note := "already negated" },
        ?_, rfl⟩
      apply List.mem_map.2
      refine ⟨mkWasteTerm negativeKeywordsSet st, ?_, rfl⟩
      apply List.mem_filter.2
      refine ⟨?_, by simp [mkWasteTerm, hneg]⟩
      rw [allWasteTermsOf]
      exact (mem_sortByDesc _).2 (List.mem_map.2 ⟨st, List.mem_filter.2 ⟨hmem, hw⟩, rfl⟩)
    · intro hcon
      rw [analyze_arr_wasteTerms] at hcon
      rcases List.mem_map.1 hcon with ⟨wt, hwt, hterm⟩
      have hfalse := (wrongIntent_of_mem_wasteTermsOf hwt).2
      rw [hterm, hneg] at hfalse
      exact Bool.noConfusion hfalse
  · intro hneg
    constructor
    · intro hcon
      rw [analyze_arr_alreadyCovered] at hcon
      rcases List.mem_map.1 hcon with ⟨c, hc, hterm⟩
      have htrue := (wrongIntent_of_mem_alreadyCoveredOf hc).2
      rw [hterm, hneg] at htrue
      exact Bool.noConfusion htrue
    · intro hbound
      rw [analyze_arr_wasteTerms, wasteTermsOf, List.take_of_length_le hbound]
      apply List.mem_map.2
      refine ⟨mkWasteTerm negativeKeywordsSet st, ?_, rfl⟩
      apply List.mem_filter.2
      refine ⟨?_, by simp [mkWasteTerm, hneg]⟩
      rw [allWasteTermsOf]
      exact (mem_sortByDesc _).2 (List.mem_map.2 ⟨st, List.mem_filter.2 ⟨hmem, hw⟩, rfl⟩)

/-- 16 not-yet-negated waste candidates with distinct spends
($3.00 up to $18.00), all wrong-intent ("lawyer"), clicks 1, conversions 0. -/
def exCandidates16 : List SearchTermRecord :=
  [⟨"lawyer a", 1, 0, 300, 0, 0⟩, ⟨"lawyer b", 1, 0, 400, 0, 0⟩,
   ⟨"lawyer c", 1, 0, 500, 0, 0⟩, ⟨"lawyer d", 1, 0, 600, 0, 0⟩,
   ⟨"lawyer e", 1, 0, 700, 0, 0⟩, ⟨"lawyer f", 1, 0, 800, 0, 0⟩,
   ⟨"lawyer g", 1, 0, 900, 0, 0⟩, ⟨"lawyer h", 1, 0, 1000, 0, 0⟩,
   ⟨"lawyer i", 1, 0, 1100, 0, 0⟩, ⟨"lawyer j", 1, 0, 1200, 0, 0⟩,
   ⟨"lawyer k", 1, 0, 1300, 0, 0⟩, ⟨"lawyer l", 1, 0, 1400, 0, 0⟩,
   ⟨"lawyer m", 1, 0, 1500, 0, 0⟩, ⟨"lawyer n", 1, 0, 1600, 0, 0⟩,
   ⟨"lawyer o", 1, 0, 1700, 0, 0⟩, ⟨"lawyer p", 1, 0, 1800, 0, 0⟩]

/-- C1 counterexample: with 16 not-yet-negated waste candidates, the
lowest-spend one ("lawyer a", spend $3.00) satisfies the waste predicate of
the claim and yet is dropped from `wasteTerms` (top-15 truncation) without
appearing in `alreadyCovered` — it vanishes from both lists. -/
theorem claim1_counterexample :
    (⟨"lawyer a", 1, 0, 300, 0, 0⟩ : SearchTermRecord) ∈ exCandidates16
    ∧ wasteFilter ⟨"lawyer a", 1, 0, 300, 0, 0⟩ = true
    ∧ isAlreadyNegated [] "lawyer a" = false
    ∧ ((analyzeSearchTermsForGaps (.arr exCandidates16) (.arr []) []).wasteTerms.map
        (fun wt => wt.searchTerm)).contains "lawyer a" = false
    ∧ ((analyzeSearchTermsForGaps (.arr exCandidates16) (.arr []) []).alreadyCovered.map
        (fun c => c.keyword)).contains "lawyer a" = false
    ∧ (analyzeSearchTermsForGaps (.arr exCandidates16) (.arr []) []).wasteTerms.length = 15 := by
  refine ⟨by decide, by decide, by decide, by decide, by decide, by decide⟩

/-- A two-term input for the C1 witness: one waste candidate already negated
by the substring "attorney", one not yet negated. -/
def exPartitionTerms : List SearchTermRecord :=
  [⟨"hoa attorney help", 3, 0, 500, 0, 0⟩, ⟨"free hoa letter sample", 2, 0, 400, 0, 0⟩]

/-- Witness for C1 (amended) at a concrete input: the negated candidate
lands exactly in `alreadyCovered`, the not-yet-negated one exactly in
`wasteTerms`. -/
theorem claim1_witness :
    "hoa attorney help" ∈ (analyzeSearchTermsForGaps (.arr exPartitionTerms) (.arr [])
        ["attorney"]).alreadyCovered.map (fun c => c.keyword)
    ∧ "hoa attorney help" ∉ (analyzeSearchTermsForGaps (.arr exPartitionTerms) (.arr [])
        ["attorney"]).wasteTerms.map (fun wt => wt.searchTerm)
    ∧ "free hoa letter sample" ∉ (analyzeSearchTermsForGaps (.arr exPartitionTerms) (.arr [])
        ["attorney"]).alreadyCovered.map (fun c => c.keyword)
    ∧ "free hoa letter sample" ∈ (analyzeSearchTermsForGaps (.arr exPartitionTerms) (.arr [])
        ["attorney"]).wasteTerms.map (fun wt => wt.searchTerm) := by
  have h1 := (claim1_waste_partition_amended exPartitionTerms (.arr []) ["attorney"]
    ⟨"hoa attorney help", 3, 0, 500, 0, 0⟩ (by decide) (by decide)).1 (by decide)
  have h2 := (claim1_waste_partition_amended exPartitionTerms (.arr []) ["attorney"]
    ⟨"free hoa letter sample", 2, 0, 400, 0, 0⟩ (by decide) (by decide)).2 (by decide)
  exact ⟨h1.1, h1.2, h2.1, h2.2 (by decide)⟩

/-- C4 (amended): the `opportunities` list consists exactly of the images of
the search terms with clicks ≥ 1, not wrong-intent and not an existing
keyword (soundness always, completeness whenever at most 20 such terms
exist), is sorted descending by clicks with length at most 20, and each
entry carries actualCpc = spend / clicks rounded to the nearest cent
(0 if clicks = 0) — the rounding being the only divergence from the claim
as stated. -/
theorem claim4_opportunities_amended (ts : List SearchTermRecord)
    (keywordData : JsInput KeywordRecord) (negativeKeywordsSet : List String) :
    (∀ o ∈ (analyzeSearchTermsForGaps (.arr ts) keywordData negativeKeywordsSet).opportunities,
        ∃ st, st ∈ ts ∧ oppFilter (existingKeywordsOf keywordData) st = true
          ∧ o = mkOpportunity st)
    ∧ ((ts.filter (oppFilter (existingKeywordsOf keywordData))).length ≤ 20 →
        ∀ st ∈ ts, oppFilter (existingKeywordsOf keywordData) st = true →
          mkOpportunity st ∈ (analyzeSearchTermsForGaps (.arr ts) keywordData
            negativeKeywordsSet).opportunities)
    ∧ List.Sorted (fun a b : Opportunity => b.clicks ≤ a.clicks)
        (analyzeSearchTermsForGaps (.arr ts) keywordData negativeKeywordsSet).opportunities
    ∧ (analyzeSearchTermsForGaps (.arr ts) keywordData
        negativeKeywordsSet).opportunities.length ≤ 20
    ∧ (∀ o ∈ (analyzeSearchTermsForGaps (.arr ts) keywordData
          negativeKeywordsSet).opportunities,
        o.actualCpc = if 0 < o.clicks then jsRoundDiv o.spend o.clicks else 0) := by
  refine ⟨?_, ?_, ?_, ?_, ?_⟩
  · intro o ho
    rw [analyze_arr_opportunities] at ho
    exact exists_of_mem_opportunitiesOf ho
  · intro hlen st hst hfil
    rw [analyze_arr_opportunities, opportunitiesOf]
    have hlen2 : (sortByDesc (fun o => o.clicks)
        ((ts.filter (oppFilter (existingKeywordsOf keywordData))).map mkOpportunity)).length
          ≤ 20 := by
      rw [length_sortByDesc, List.length_map]
      exact hlen
    rw [List.take_of_length_le hlen2]
    exact (mem_sortByDesc _).2 (List.mem_map.2 ⟨st, List.mem_filter.2 ⟨hst, hfil⟩, rfl⟩)
  · rw [analyze_arr_opportunities, opportunitiesOf]
    exact List.Pairwise.sublist (List.take_sublist _ _) (sorted_sortByDesc _ _)
  · rw [analyze_arr_opportunities, opportunitiesOf, List.length_take]
    exact Nat.min_le_left _ _
  · intro o ho
    rw [analyze_arr_opportunities] at ho
    rcases exists_of_mem_opportunitiesOf ho with ⟨st, _, _, rfl⟩
    rfl

/-- C4 counterexample: for the single opportunity "hoa letter" with clicks 3
and spend $1.00 (100 cents) the code stores actualCpc = 33 cents, while the
exact spend / clicks of the claim is 100/3 cents — the stored value is the
cent-rounded quotient, not the quotient itself. -/
theorem claim4_counterexample :
    (analyzeSearchTermsForGaps (.arr [⟨"hoa letter", 3, 0, 100, 0, 0⟩])
        (.arr []) []).opportunities.map (fun o => (o.searchTerm, o.clicks, o.spend, o.actualCpc))
      = [("hoa letter", 3, 100, 33)]
    ∧ (33 : ℚ) ≠ (100 : ℚ) / 3 :=
  ⟨by decide, by norm_num⟩

/-- Witness for C4 (amended): the claim's own example — "diy hoa response
letter", clicks 5, spend $4.00, conversions 1, empty keywords/negatives —
appears in `opportunities` with actualCpc = 80 cents ($0.80). -/
theorem claim4_witness :
    mkOpportunity ⟨"diy hoa response letter", 5, 0, 400, 1, 0⟩
      ∈ (analyzeSearchTermsForGaps (.arr [⟨"diy hoa response letter", 5, 0, 400, 1, 0⟩])
          (.arr []) []).opportunities
    ∧ (mkOpportunity ⟨"diy hoa response letter", 5, 0, 400, 1, 0⟩).actualCpc = 80 := by
  refine ⟨(claim4_opportunities_amended [⟨"diy hoa response letter", 5, 0, 400, 1, 0⟩]
    (.arr []) []).2.1 (by decide) _ (by decide) (by decide), by decide⟩

/-! ### Helper lemmas for the negative-keyword normalizer -/

theorem mem_jsSetAdd {s : List String} {k k' : String} :
    k ∈ jsSetAdd s k' ↔ k ∈ s ∨ k = k' := by
  by_cases h : k' ∈ s
  · rw [jsSetAdd, if_pos h]
    constructor
    · exact fun h1 => Or.inl h1
    · rintro (h1 | rfl)
      · exact h1
      · exact h
  · rw [jsSetAdd, if_neg h]
    simp [List.mem_append]

theorem foldl_addNegRecord_fst (mkEntry : NegRecord → ExistingNegative)
    (l : List NegRecord) (acc : List ExistingNegative × List String) :
    (l.foldl (addNegRecord mkEntry) acc).1
      = acc.1 ++ (l.filter (fun n => n.keyword ≠ "")).map mkEntry := by
  induction l generalizing acc with
  | nil => simp
  | cons n l ih =>
      rw [List.foldl_cons, ih]
      by_cases h : n.keyword = ""
      · rw [addNegRecord, if_neg (by simp [h])]
        simp [List.filter_cons, h]
      · rw [addNegRecord, if_pos (by simp [h])]
        simp [List.filter_cons, h]

theorem foldl_addNegRecord_snd_mem (mkEntry : NegRecord → ExistingNegative)
    (l : List NegRecord) (acc : List ExistingNegative × List String) (k : String) :
    k ∈ (l.foldl (addNegRecord mkEntry) acc).2
      ↔ k ∈ acc.2 ∨ ∃ n, n ∈ l ∧ n.keyword ≠ "" ∧ normTerm n.keyword = k := by
  induction l generalizing acc with
  | nil => simp
  | cons n l ih =>
      rw [List.foldl_cons, ih]
      by_cases h : n.keyword = ""
      · rw [addNegRecord, if_neg (by simp [h])]
        constructor
        · rintro (hk | ⟨m, hm, hne, hnorm⟩)
          · exact Or.inl hk
          · exact Or.inr ⟨m, List.mem_cons_of_mem _ hm, hne, hnorm⟩
        · rintro (hk | ⟨m, hm, hne, hnorm⟩)
          · exact Or.inl hk
          · rcases List.mem_cons.1 hm with rfl | hm'
            · exact absurd h hne
            · exact Or.inr ⟨m, hm', hne, hnorm⟩
      · rw [addNegRecord, if_pos (by simp [h])]
        rw [mem_jsSetAdd]
        constructor
        · rintro ((hk | rfl) | ⟨m, hm, hne, hnorm⟩)
          · exact Or.inl hk
          · exact Or.inr ⟨n, List.mem_cons_self _ _, h, rfl⟩
          · exact Or.inr ⟨m, List.mem_cons_of_mem _ hm, hne, hnorm⟩
        · rintro (hk | ⟨m, hm, hne, hnorm⟩)
          · exact Or.inl (Or.inl hk)
          · rcases List.mem_cons.1 hm with rfl | hm'
            · exact Or.inl (Or.inr hnorm.symm)
            · exact Or.inr ⟨m, hm', hne, hnorm⟩

/-- C8: `combineNegativeKeywords` drops exactly the records with a
missing/empty keyword: the detailed list is the two surviving sublists in
order, each entry keeping the verbatim keyword text with its source's scope
("campaign" then "account"); the match set contains exactly the lower-cased
trimmed keywords of the surviving records; empty inputs give empty outputs. -/
theorem claim8_combine_negatives (campaignNegatives sharedSetNegatives : List NegRecord) :
    (combineNegativeKeywords (.arr campaignNegatives) (.arr sharedSetNegatives)).1
        = (campaignNegatives.filter (fun n => n.keyword ≠ "")).map mkCampaignEntry
          ++ (sharedSetNegatives.filter (fun n => n.keyword ≠ "")).map mkSharedEntry
    ∧ (∀ k, k ∈ (combineNegativeKeywords (.arr campaignNegatives) (.arr sharedSetNegatives)).2
        ↔ ((∃ n, n ∈ campaignNegatives ∧ n.keyword ≠ "" ∧ normTerm n.keyword = k)
           ∨ (∃ n, n ∈ sharedSetNegatives ∧ n.keyword ≠ "" ∧ normTerm n.keyword = k)))
    ∧ combineNegativeKeywords (JsInput.arr ([] : List NegRecord)) (.arr []) = ([], []) := by
  refine ⟨?_, ?_, rfl⟩
  · show (sharedSetNegatives.foldl (addNegRecord mkSharedEntry)
        (campaignNegatives.foldl (addNegRecord mkCampaignEntry) ([], []))).1 = _
    rw [foldl_addNegRecord_fst, foldl_addNegRecord_fst]
    simp
  · intro k
    show k ∈ (sharedSetNegatives.foldl (addNegRecord mkSharedEntry)
        (campaignNegatives.foldl (addNegRecord mkCampaignEntry) ([], []))).2 ↔ _
    rw [foldl_addNegRecord_snd_mem, foldl_addNegRecord_snd_mem]
    simp [or_assoc]

/-- Witness for C8 at a concrete pair of sources: the record with the empty
keyword is dropped, casing and scope are preserved on the detailed list,
and the match set holds the normalized keywords. -/
theorem claim8_witness :
    (combineNegativeKeywords
        (.arr [⟨"Attorney Near Me", "PHRASE", some "C1", none⟩, ⟨"", "EXACT", none, none⟩])
        (.arr [⟨"FREE template", "BROAD", none, some "S1"⟩])).1
      = [mkCampaignEntry ⟨"Attorney Near Me", "PHRASE", some "C1", none⟩,
         mkSharedEntry ⟨"FREE template", "BROAD", none, some "S1"⟩]
    ∧ "attorney near me" ∈ (combineNegativeKeywords
        (.arr [⟨"Attorney Near Me", "PHRASE", some "C1", none⟩, ⟨"", "EXACT", none, none⟩])
        (.arr [⟨"FREE template", "BROAD", none, some "S1"⟩])).2 := by
  constructor
  · rw [(claim8_combine_negatives
      [⟨"Attorney Near Me", "PHRASE", some "C1", none⟩, ⟨"", "EXACT", none, none⟩]
      [⟨"FREE template", "BROAD", none, some "S1"⟩]).1]
    decide
  · exact ((claim8_combine_negatives
      [⟨"Attorney Near Me", "PHRASE", some "C1", none⟩, ⟨"", "EXACT", none, none⟩]
      [⟨"FREE template", "BROAD", none, some "S1"⟩]).2.1 "attorney near me").2
      (Or.inl ⟨⟨"Attorney Near Me", "PHRASE", some "C1", none⟩, by decide, by decide, by decide⟩)

/-! ### Helper lemmas about the client-poller service model -/

theorem emitAndComplete_active (s : ServiceState) (j : String) (e : Emission) :
    (emitAndComplete s j e).active = s.active := by
  rw [emitAndComplete]; split <;> rfl

theorem emitAndComplete_pending (s : ServiceState) (j : String) (e : Emission) :
    (emitAndComplete s j e).pending = s.pending := by
  rw [emitAndComplete]; split <;> rfl

theorem emitAndComplete_emitted_ne (s : ServiceState) {j k : String} (e : Emission)
    (h : k ≠ j) : (emitAndComplete s j e).emitted k = s.emitted k := by
  rw [emitAndComplete]; split
  · rfl
  · show fupdate s.emitted j _ k = s.emitted k
    rw [fupdate, if_neg h]

theorem emitAndComplete_preserves (s : ServiceState) (j' : String) (e : Emission)
    (j : String) (h : s.completed j = true) :
    (emitAndComplete s j' e).emitted j = s.emitted j
      ∧ (emitAndComplete s j' e).completed j = true := by
  by_cases hj : j = j'
  · subst hj
    rw [emitAndComplete, if_pos h]
    exact ⟨rfl, h⟩
  · rw [emitAndComplete]
    split
    · exact ⟨rfl, h⟩
    · constructor
      · show fupdate s.emitted j' _ j = s.emitted j
        rw [fupdate, if_neg hj]
      · show fupdate s.completed j' true j = true
        rw [fupdate, if_neg hj]
        exact h

/-- Once a job's result subject has completed, no later event changes what
was emitted on it. -/
theorem svcStep_frozen (M : ℕ) (j : String) (s : ServiceState) (e : SvcEvent)
    (h : s.completed j = true) :
    (svcStep M s e).emitted j = s.emitted j ∧ (svcStep M s e).completed j = true := by
  cases e with
  | tick j2 =>
      simp only [svcStep]
      split
      · split
        · exact emitAndComplete_preserves _ j2 _ j h
        · exact ⟨rfl, h⟩
      · exact ⟨rfl, h⟩
  | submit j2 => exact ⟨rfl, h⟩
  | respond j2 r =>
      simp only [svcStep]
      split
      · cases r with
        | processing => exact ⟨rfl, h⟩
        | complete b => cases b <;> exact emitAndComplete_preserves _ j2 _ j h
        | errorStatus m => exact emitAndComplete_preserves _ j2 _ j h
        | httpError m => exact emitAndComplete_preserves _ j2 _ j h
      · exact ⟨rfl, h⟩

theorem runSvc_frozen (M : ℕ) (j : String) (evs : List SvcEvent) :
    ∀ s : ServiceState, s.completed j = true →
      (runSvc M s evs).emitted j = s.emitted j ∧ (runSvc M s evs).completed j = true := by
  induction evs with
  | nil => exact fun s h => ⟨rfl, h⟩
  | cons e evs ih =>
      intro s h
      have h1 := svcStep_frozen M j s e h
      have h2 := ih (svcStep M s e) h1.2
      exact ⟨h2.1.trans h1.1, h2.2⟩

/-- C10: when a poll HTTP request fails (transport/non-2xx, delivered to the
error callback rather than as an `error` status in a 2xx body), the poller
tears down the interval subscription, emits exactly one client-side error
value on the job's result subject, completes it, and never emits again. -/
theorem claim10_poll_http_error (M : ℕ) (s : ServiceState) (j msg : String)
    (_hact : s.active = some j) (hpend : j ∈ s.pending) (hcomp : s.completed j = false) :
    (svcStep M s (.respond j (.httpError msg))).active = none
    ∧ (svcStep M s (.respond j (.httpError msg))).emitted j
        = s.emitted j ++ [Emission.httpFailure msg]
    ∧ (svcStep M s (.respond j (.httpError msg))).completed j = true
    ∧ ∀ evs, (runSvc M (svcStep M s (.respond j (.httpError msg))) evs).emitted j
        = s.emitted j ++ [Emission.httpFailure msg] := by
  have hstep : svcStep M s (.respond j (.httpError msg))
      = emitAndComplete { s with pending := s.pending.erase j, active := none }
          j (.httpFailure msg) := by
    simp only [svcStep, if_pos hpend]
  have hecomp : (emitAndComplete { s with pending := s.pending.erase j, active := none }
      j (.httpFailure msg)).completed j = true := by
    rw [emitAndComplete, if_neg (by simp [hcomp])]
    show fupdate _ j true j = true
    rw [fupdate, if_pos rfl]
  have hemit : (emitAndComplete { s with pending := s.pending.erase j, active := none }
      j (.httpFailure msg)).emitted j = s.emitted j ++ [Emission.httpFailure msg] := by
    rw [emitAndComplete, if_neg (by simp [hcomp])]
    show fupdate _ j _ j = _
    rw [fupdate, if_pos rfl]
  refine ⟨?_, ?_, ?_, ?_⟩
  · rw [hstep, emitAndComplete_active]
  · rw [hstep, hemit]
  · rw [hstep, hecomp]
  · intro evs
    rw [hstep]
    have h := runSvc_frozen M j evs _ hecomp
    rw [h.1, hemit]

/-- The state after submitting job "A" and one interval tick: polling is
active with one request in flight and nothing emitted. -/
def exPollState : ServiceState :=
  runSvc 120 (svcStep 120 initSvc (.submit "A")) [.tick "A"]

/-- Witness for C10: a concrete in-flight poll whose HTTP request fails.
The interval is torn down and exactly the client-side failure value is
emitted. -/
theorem claim10_witness :
    (svcStep 120 exPollState (.respond "A" (.httpError "Polling failed"))).active = none
    ∧ (svcStep 120 exPollState (.respond "A" (.httpError "Polling failed"))).emitted "A"
        = [Emission.httpFailure "Polling failed"]
    ∧ (svcStep 120 exPollState (.respond "A" (.httpError "Polling failed"))).completed "A"
        = true := by
  have h := claim10_poll_http_error 120 exPollState "A" "Polling failed"
    (by decide) (by decide) (by decide)
  refine ⟨h.1, ?_, h.2.2.1⟩
  rw [h.2.1]
  decide

/-- Invariant of a single-job polling loop (job `j`, `n` ticks consumed):
either polling is still live with one poll issued per tick and nothing
emitted, or the attempt budget was exceeded and exactly the one timeout
value was emitted with `M` polls issued in total. -/
abbrev PollInv (M : ℕ) (j : String) (n : ℕ) (s : ServiceState) : Prop :=
  (∀ k ∈ s.pending, k = j)
  ∧ ((s.active = some j ∧ s.attempts j = n ∧ n ≤ M ∧ s.polled j = n
        ∧ s.emitted j = [] ∧ s.completed j = false)
     ∨ (s.active = none ∧ M < n ∧ s.polled j = M
        ∧ s.emitted j = [Emission.timeoutResult] ∧ s.completed j = true))

theorem pollInv_tick (M : ℕ) (j : String) (n : ℕ) (s : ServiceState)
    (h : PollInv M j n s) : PollInv M j (n + 1) (svcStep M s (.tick j)) := by
  obtain ⟨hpend, hcase⟩ := h
  rcases hcase with ⟨hact, hatt, hle, hpol, hemit, hcomp⟩ | ⟨hact, hlt, hpol, hemit, hcomp⟩
  · simp only [svcStep]
    rw [if_pos hact]
    by_cases hM : M < s.attempts j + 1
    · rw [if_pos hM]
      rw [hatt] at hM
      rw [emitAndComplete, if_neg (by simp [hcomp])]
      constructor
      · exact hpend
      · right
        refine ⟨rfl, hM, ?_, ?_, ?_⟩
        · show s.polled j = M
          rw [hpol]
          omega
        · show fupdate s.emitted j (s.emitted j ++ [Emission.timeoutResult]) j
            = [Emission.timeoutResult]
          rw [fupdate, if_pos rfl, hemit]
          rfl
        · show fupdate s.completed j true j = true
          rw [fupdate, if_pos rfl]
    · rw [if_neg hM]
      rw [hatt] at hM
      constructor
      · intro k hk
        rcases List.mem_append.1 hk with hk | hk
        · exact hpend k hk
        · simpa using hk
      · left
        refine ⟨hact, ?_, by omega, ?_, hemit, hcomp⟩
        · show fupdate s.attempts j (s.attempts j + 1) j = n + 1
          rw [fupdate, if_pos rfl, hatt]
        · show fupdate s.polled j (s.polled j + 1) j = n + 1
          rw [fupdate, if_pos rfl, hpol]
  · simp only [svcStep]
    rw [if_neg (by simp [hact])]
    exact ⟨hpend, Or.inr ⟨hact, Nat.lt_succ_of_lt hlt, hpol, hemit, hcomp⟩⟩

theorem pollInv_respond (M : ℕ) (j : String) (n : ℕ) (s : ServiceState)
    (h : PollInv M j n s) : PollInv M j n (svcStep M s (.respond j .processing)) := by
  obtain ⟨hpend, hcase⟩ := h
  simp only [svcStep]
  split
  · exact ⟨fun k hk => hpend k (List.erase_subset _ _ hk), hcase⟩
  · exact ⟨hpend, hcase⟩

theorem pollInv_run (M : ℕ) (j : String) :
    ∀ (evs : List SvcEvent),
      (∀ e ∈ evs, e = SvcEvent.tick j ∨ e = SvcEvent.respond j PollResponse.processing) →
      ∀ (n : ℕ) (s : ServiceState), PollInv M j n s →
        PollInv M j (n + evs.countP (fun e => decide (e = SvcEvent.tick j)))
          (runSvc M s evs) := by
  intro evs
  induction evs with
  | nil => intro _ n s h; simpa [runSvc] using h
  | cons e evs ih =>
      intro hevs n s h
      rcases hevs e (List.mem_cons_self _ _) with rfl | rfl
      · have h1 := pollInv_tick M j n s h
        have h2 := ih (fun e' he' => hevs e' (List.mem_cons_of_mem _ he')) (n + 1) _ h1
        have hcount : n + (SvcEvent.tick j :: evs).countP
              (fun e => decide (e = SvcEvent.tick j))
            = (n + 1) + evs.countP (fun e => decide (e = SvcEvent.tick j)) := by
          rw [List.countP_cons]
          simp
          omega
        rw [hcount]
        exact h2
      · have h1 := pollInv_respond M j n s h
        have h2 := ih (fun e' he' => hevs e' (List.mem_cons_of_mem _ he')) n _ h1
        have hcount : n + (SvcEvent.respond j PollResponse.processing :: evs).countP
              (fun e => decide (e = SvcEvent.tick j))
            = n + evs.countP (fun e => decide (e = SvcEvent.tick j)) := by
          rw [List.countP_cons]
          simp
        rw [hcount]
        exact h2

/-- C5: a poller for a single job whose poll responses are never terminal
(every event is a tick or a `processing` response) issues at most
`maxAttempts` poll requests; its subject either has emitted nothing yet or
exactly the one client-side timeout value; and as soon as more than
`maxAttempts` ticks have elapsed, exactly the timeout value has been
emitted and exactly `maxAttempts` polls were issued — in particular no
further poll request follows the budget's exhaustion. -/
theorem claim5_poll_attempt_bound (M : ℕ) (evs : List SvcEvent)
    (hevs : ∀ e ∈ evs, e = SvcEvent.tick "A" ∨ e = SvcEvent.respond "A"
      PollResponse.processing) :
    (runSvc M (svcStep M initSvc (.submit "A")) evs).polled "A" ≤ M
    ∧ ((runSvc M (svcStep M initSvc (.submit "A")) evs).emitted "A" = []
        ∨ (runSvc M (svcStep M initSvc (.submit "A")) evs).emitted "A"
            = [Emission.timeoutResult])
    ∧ (M < evs.countP (fun e => decide (e = SvcEvent.tick "A")) →
        (runSvc M (svcStep M initSvc (.submit "A")) evs).emitted "A"
            = [Emission.timeoutResult]
        ∧ (runSvc M (svcStep M initSvc (.submit "A")) evs).polled "A" = M) := by
  have h0 : PollInv M "A" 0 (svcStep M initSvc (.submit "A")) := by
    refine ⟨fun k hk => absurd hk (List.not_mem_nil k), Or.inl ⟨rfl, ?_, Nat.zero_le M, rfl, rfl, rfl⟩⟩
    show fupdate (fun _ => 0) "A" 0 "A" = 0
    rw [fupdate, if_pos rfl]
  have hfin := pollInv_run M "A" evs hevs 0 _ h0
  obtain ⟨-, hcase⟩ := hfin
  rcases hcase with ⟨-, -, hle, hpol, hemit, -⟩ | ⟨-, hlt, hpol, hemit, -⟩
  · refine ⟨?_, Or.inl hemit, ?_⟩
    · rw [hpol]; exact hle
    · intro hM
      exfalso
      omega
  · refine ⟨?_, Or.inr hemit, fun _ => ⟨hemit, hpol⟩⟩
    rw [hpol]

/-- A schedule with maxAttempts 3: three full poll rounds (tick then a
`processing` response) and a fourth tick. -/
def exPollEvents : List SvcEvent :=
  [.tick "A", .respond "A" .processing, .tick "A", .respond "A" .processing,
   .tick "A", .respond "A" .processing, .tick "A"]

/-- Witness for C5 at maxAttempts 3: after the fourth tick the poller has
issued exactly 3 poll requests (never a fourth) and emitted exactly the
timeout value. -/
theorem claim5_witness :
    (runSvc 3 (svcStep 3 initSvc (.submit "A")) exPollEvents).polled "A" ≤ 3
    ∧ (runSvc 3 (svcStep 3 initSvc (.submit "A")) exPollEvents).emitted "A"
        = [Emission.timeoutResult]
    ∧ (runSvc 3 (svcStep 3 initSvc (.submit "A")) exPollEvents).polled "A" = 3 := by
  have h := claim5_poll_attempt_bound 3 exPollEvents (by decide)
  have h2 := h.2.2 (by decide)
  exact ⟨h.1, h2.1, h2.2⟩

/-- While job `A`'s interval subscription is not the live one and no poll
request of `A` is in flight, any event other than a resubmission of `A`
keeps it that way and leaves `A`'s emissions untouched. -/
theorem svcStep_other_job (M : ℕ) (A : String) (s : ServiceState) (e : SvcEvent)
    (hact : s.active ≠ some A) (hpend : ∀ k ∈ s.pending, k ≠ A)
    (hsub : e ≠ .submit A) :
    (svcStep M s e).active ≠ some A
    ∧ (∀ k ∈ (svcStep M s e).pending, k ≠ A)
    ∧ (svcStep M s e).emitted A = s.emitted A := by
  cases e with
  | tick j =>
      simp only [svcStep]
      split
      · rename_i hj
        have hjA : j ≠ A := fun h => hact (h ▸ hj)
        split
        · refine ⟨?_, ?_, ?_⟩
          · rw [emitAndComplete_active]
            simp
          · rw [emitAndComplete_pending]
            exact hpend
          · exact emitAndComplete_emitted_ne _ _ (Ne.symm hjA)
        · refine ⟨hact, ?_, rfl⟩
          intro k hk
          rcases List.mem_append.1 hk with hk | hk
          · exact hpend k hk
          · simp only [List.mem_singleton] at hk
            exact hk ▸ hjA
      · exact ⟨hact, hpend, rfl⟩
  | submit j =>
      have hjA : j ≠ A := fun h => hsub (by rw [h])
      refine ⟨?_, hpend, rfl⟩
      show some j ≠ some A
      simp [hjA]
  | respond j r =>
      simp only [svcStep]
      split
      · rename_i hjp
        have hjA : j ≠ A := hpend j hjp
        have hpend' : ∀ k ∈ s.pending.erase j, k ≠ A :=
          fun k hk => hpend k (List.erase_subset _ _ hk)
        cases r with
        | processing => exact ⟨hact, hpend', rfl⟩
        | complete b =>
            cases b <;>
            exact ⟨by rw [emitAndComplete_active]; simp,
              by rw [emitAndComplete_pending]; exact hpend',
              emitAndComplete_emitted_ne _ _ (Ne.symm hjA)⟩
        | errorStatus m =>
            exact ⟨by rw [emitAndComplete_active]; simp,
              by rw [emitAndComplete_pending]; exact hpend',
              emitAndComplete_emitted_ne _ _ (Ne.symm hjA)⟩
        | httpError m =>
            exact ⟨by rw [emitAndComplete_active]; simp,
              by rw [emitAndComplete_pending]; exact hpend',
              emitAndComplete_emitted_ne _ _ (Ne.symm hjA)⟩
      · exact ⟨hact, hpend, rfl⟩

theorem runSvc_other_job (M : ℕ) (A : String) :
    ∀ (evs : List SvcEvent), SvcEvent.submit A ∉ evs →
      ∀ s : ServiceState, s.active ≠ some A → (∀ k ∈ s.pending, k ≠ A) →
        (runSvc M s evs).emitted A = s.emitted A := by
  intro evs
  induction evs with
  | nil => intro _ s _ _; rfl
  | cons e evs ih =>
      intro hsub s hact hpend
      have hne : e ≠ SvcEvent.submit A := fun h => hsub (h ▸ List.mem_cons_self _ _)
      obtain ⟨h1, h2, h3⟩ := svcStep_other_job M A s e hact hpend hne
      have h4 := ih (fun h => hsub (List.mem_cons_of_mem _ h)) (svcStep M s e) h1 h2
      exact h4.trans h3

/-- C6 (amended): after job `A`'s interval subscription has been replaced
(`getSuggestions` for a newer job called `cancelPolling`), no tick for `A`
can fire (the tick event is a strict no-op), and — provided no poll request
of `A` was still in flight at cancellation — no further value is ever
emitted to `A`'s subscriber under any later events that do not resubmit
`A`.  (A response already in flight at cancellation CAN still emit to `A`,
which is what refutes the claim as stated.) -/
theorem claim6_cancel_amended (M : ℕ) (A : String) (s : ServiceState)
    (evs : List SvcEvent)
    (hact : s.active ≠ some A) (hpend : ∀ k ∈ s.pending, k ≠ A)
    (hsub : SvcEvent.submit A ∉ evs) :
    svcStep M s (.tick A) = s ∧ (runSvc M s evs).emitted A = s.emitted A := by
  constructor
  · simp only [svcStep]
    rw [if_neg hact]
  · exact runSvc_other_job M A evs hsub s hact hpend

/-- C6 counterexample: submit job A, let one poll request go out, then
submit job B (which cancels A's interval).  Nothing has been emitted to A —
but when A's in-flight response arrives (`complete` with a result), the
still-subscribed response handler emits it to A's subscriber and its
`cancelPolling()` also tears down B's fresh interval subscription. -/
theorem claim6_counterexample :
    (runSvc 120 initSvc [.submit "A", .tick "A", .submit "B"]).active = some "B"
    ∧ (runSvc 120 initSvc [.submit "A", .tick "A", .submit "B"]).emitted "A" = []
    ∧ (runSvc 120 initSvc [.submit "A", .tick "A", .submit "B"]).pending = ["A"]
    ∧ (svcStep 120 (runSvc 120 initSvc [.submit "A", .tick "A", .submit "B"])
        (.respond "A" (.complete true))).emitted "A" = [Emission.success]
    ∧ (svcStep 120 (runSvc 120 initSvc [.submit "A", .tick "A", .submit "B"])
        (.respond "A" (.complete true))).active = none := by
  refine ⟨by decide, by decide, by decide, by decide, by decide⟩

/-- Witness for C6 (amended) at a concrete state: A's interval was replaced
by B's with no request of A in flight; ticks for A are no-ops and B's
polling activity emits nothing to A. -/
theorem claim6_witness :
    svcStep 120 (runSvc 120 initSvc [.submit "A", .submit "B"]) (.tick "A")
      = runSvc 120 initSvc [.submit "A", .submit "B"]
    ∧ (runSvc 120 (runSvc 120 initSvc [.submit "A", .submit "B"])
        [.tick "B", .respond "B" .processing]).emitted "A" = [] := by
  have h := claim6_cancel_amended 120 "A" (runSvc 120 initSvc [.submit "A", .submit "B"])
    [.tick "B", .respond "B" .processing] (by decide) (by decide) (by decide)
  refine ⟨h.1, ?_⟩
  rw [h.2]
  decide
